import Mathlib

/-!
Verification of the lean-cli push/synchronization reconciliation engine and
the project-update command, shallowly embedded in Lean 4.

The push-manager definitions are modelled from the specification (see the
in-place doc comments); the project-update definitions are translated from
lean/commands/update_project.py.
-/

namespace LeanCli

/-- A remote API call emitted by the reconciliation engine during a push,
recorded in order of emission: project creation, library association
add/delete, file upload, and the single scalar-settings update call
(with its keyword fields). -/
inductive RemoteOp where
  | create (name : String)
  | addLibrary (projectId libraryId : Nat)
  | deleteLibrary (projectId libraryId : Nat)
  | uploadFiles (projectId : Nat)
  | update (projectId : Nat) (lean_engine : Option Int) (python_venv : Option Int)
  deriving DecidableEq

/-- A remote project record (QCProject): integer identifier, path-derived
name, current library-association set, engine-version pin, the
pinned-to-default-engine flag and the optional environment identifier. -/
structure QCProject where
  projectId : Nat
  name : String
  libraries : List Nat
  leanVersionId : Int
  leanPinnedToMaster : Bool
  leanEnvironment : Option Int
  deriving DecidableEq

/-- The slice of a local project's persisted config that the reconciliation
engine reads: the optional cloud identifier, the optional engine pin
(config key lean-engine) and the optional environment (config key
python-venv). -/
structure LocalConfig where
  cloudId : Option Nat
  leanEngine : Option Int
  pythonVenv : Option Int
  deriving DecidableEq

/-- State threaded through one push invocation: the batch-scoped mapping of
already-resolved local paths to remote identifiers, the remote directory's
project records, the next identifier the directory will assign on create,
and the trace of emitted remote operations. -/
structure PushState where
  resolved : List (String × Nat)
  directory : List QCProject
  nextId : Nat
  ops : List RemoteOp
  deriving DecidableEq

/-- Look a local path up in the batch-scoped resolved mapping. -/
def lookupPath (st : PushState) (p : String) : Option Nat :=
  st.resolved.lookup p

/-- The record the remote directory returns for a freshly created project:
empty library-association set, pinned to the default engine, no
environment set. -/
def newCloudProject (id : Nat) (name : String) : QCProject :=
  { projectId := id, name := name, libraries := [], leanVersionId := 0,
    leanPinnedToMaster := true, leanEnvironment := none }

/-- Modelled from the spec: the remote-identity resolution step of the push
manager (lean/components/cloud/push_manager.py, which is not among the
sources of this development). For a single path that is not yet in the
batch-scoped resolved mapping: look it up by persisted cloud identifier if
one is present, otherwise create it remotely (emitting a create call and
persisting the fresh identifier); a path already resolved in this batch is
left untouched. -/
def resolveOne (cfg : String → LocalConfig) (path : String) (st : PushState) : PushState :=
  match lookupPath st path with
  | some _ => st
  | none =>
    match (cfg path).cloudId with
    | some cid => { st with resolved := (path, cid) :: st.resolved }
    | none =>
      { resolved := (path, st.nextId) :: st.resolved
        directory := st.directory ++ [newCloudProject st.nextId path]
        nextId := st.nextId + 1
        ops := st.ops ++ [RemoteOp.create path] }

/-- Modelled from the spec: the recursive remote-identity resolver of the
push manager (not among the sources of this development). It resolves all
of a project's own library dependencies first, depth-first, dependencies
before dependents, and then the project itself; the batch-scoped resolved
mapping avoids duplicate creation and breaks cycles. The fuel argument
bounds the recursion depth of the shallow embedding. -/
def resolveProject (cfg : String → LocalConfig) (libs : String → List String) :
    Nat → String → PushState → PushState
  | 0, _, st => st
  | fuel + 1, path, st =>
    if (lookupPath st path).isSome then st
    else
      let st1 := (libs path).foldl (fun s q => resolveProject cfg libs fuel q s) st
      resolveOne cfg path st1

/-- Modelled from the spec: the library-association differencer of the push
manager (not among the sources of this development). It emits one add call
per identifier in desired minus current and one delete call per identifier
in current minus desired, plain set difference. -/
def libraryDiffOps (projectId : Nat) (current desired : List Nat) : List RemoteOp :=
  (desired.filter fun i => decide (i ∉ current)).map (RemoteOp.addLibrary projectId) ++
    (current.filter fun i => decide (i ∉ desired)).map (RemoteOp.deleteLibrary projectId)

/-- The keyword fields of the single partial-update call: each field is
`some` exactly when the scalar-settings reconciler decided to push it. -/
structure UpdateFields where
  lean_engine : Option Int
  python_venv : Option Int
  deriving DecidableEq

/-- Modelled from the spec: the scalar-settings reconciler of the push
manager (not among the sources of this development). Engine pin: a local
engine value differing from the remote's pinned version is pushed; with no
local engine value, the sentinel -1 is pushed exactly when the remote
record reports it is not pinned to the default/master engine. Environment:
a local value differing from the remote's current environment is pushed; no
local value means the field is skipped entirely. -/
def scalarUpdateFields (localEngine localVenv : Option Int) (cloud : QCProject) : UpdateFields :=
  { lean_engine :=
      match localEngine with
      | some v => if v ≠ cloud.leanVersionId then some v else none
      | none => if cloud.leanPinnedToMaster then none else some (-1)
    python_venv :=
      match localVenv with
      | some v => if some v ≠ cloud.leanEnvironment then some v else none
      | none => none }

/-- Modelled from the spec: the update-call emission of the push manager
(not among the sources of this development). If any scalar differs, exactly
one update call is made, with all differing fields coalesced into it; if
none differ, no call is made. -/
def updateOps (projectId : Nat) (f : UpdateFields) : List RemoteOp :=
  if f = ⟨none, none⟩ then [] else [RemoteOp.update projectId f.lean_engine f.python_venv]

/-- Fetch a project record from the remote directory by identifier. -/
def dirFind (dir : List QCProject) (id : Nat) : Option QCProject :=
  dir.find? fun q => q.projectId == id

/-- Overwrite the library-association set of the directory record with the
given identifier. -/
def dirSetLibraries (dir : List QCProject) (id : Nat) (ls : List Nat) : List QCProject :=
  dir.map fun q => if q.projectId = id then { q with libraries := ls } else q

/-- Modelled from the spec: the per-project push of the push manager (not
among the sources of this development). It resolves the project and its
library dependencies, diffs the remote project's current library
associations against the desired set derived from local library references
and applies the difference, uploads the project's files, and finally
reconciles scalar settings against the fetched remote record; a project
whose resolution failed is aborted with no further calls. -/
def pushProject (cfg : String → LocalConfig) (libs : String → List String) (fuel : Nat)
    (path : String) (st : PushState) : PushState :=
  let st1 := resolveProject cfg libs fuel path st
  match lookupPath st1 path with
  | none => st1
  | some pid =>
    match dirFind st1.directory pid with
    | none => st1
    | some cloudProject =>
      let desired := (libs path).filterMap (lookupPath st1)
      let st2 := { st1 with
        ops := st1.ops ++ libraryDiffOps pid cloudProject.libraries desired
        directory := dirSetLibraries st1.directory pid desired }
      let st3 := { st2 with ops := st2.ops ++ [RemoteOp.uploadFiles pid] }
      let f := scalarUpdateFields (cfg path).leanEngine (cfg path).pythonVenv cloudProject
      { st3 with ops := st3.ops ++ updateOps pid f }

/-- Modelled from the spec: a push invocation over a batch of local project
paths (push manager, not among the sources of this development), processing
them one at a time in caller order, with the resolved mapping scoped to the
whole invocation. -/
def pushProjects (cfg : String → LocalConfig) (libs : String → List String) (fuel : Nat)
    (paths : List String) (st : PushState) : PushState :=
  paths.foldl (fun s p => pushProject cfg libs fuel p s) st

/-- The state at the start of a push invocation: empty resolved mapping and
empty operation trace, over an arbitrary pre-existing remote directory. -/
def initState (dir : List QCProject) (nid : Nat) : PushState :=
  { resolved := [], directory := dir, nextId := nid, ops := [] }

/-! ### The project-update command (lean/commands/update_project.py) -/

/-- A project's persisted key/value config file, as read and written by the
project config manager: an association list from keys to values. -/
structure ProjectConfig where
  entries : List (String × String)
  deriving DecidableEq

/-- Read a key from the project config. -/
def ProjectConfig.get (c : ProjectConfig) (k : String) : Option String :=
  c.entries.lookup k

/-- Write a key in the project config, replacing any previous value. -/
def ProjectConfig.set (c : ProjectConfig) (k v : String) : ProjectConfig :=
  ⟨(k, v) :: c.entries.filter fun e => e.1 != k⟩

/-- Remove a key from the project config. -/
def ProjectConfig.delete (c : ProjectConfig) (k : String) : ProjectConfig :=
  ⟨c.entries.filter fun e => e.1 != k⟩

/-- The image-option handling of update_project (update_project.py, lines
78-82): an omitted option leaves the config unchanged, the empty string
deletes the engine-image key, any other string sets it. -/
def applyImageOption (image : Option String) (c : ProjectConfig) : ProjectConfig :=
  match image with
  | none => c
  | some img => if img = "" then c.delete "engine-image" else c.set "engine-image" img

/-- The python-venv-option handling of update_project (update_project.py,
lines 84-88): an omitted option leaves the config unchanged, the empty
string deletes the python-venv key, any other string sets it. -/
def applyPythonVenvOption (venv : Option String) (c : ProjectConfig) : ProjectConfig :=
  match venv with
  | none => c
  | some v => if v = "" then c.delete "python-venv" else c.set "python-venv" v

/-- The local filesystem state seen by the rename path of update_project:
the existing project directories and, for each project, the ordered list of
library paths its config references. -/
structure LocalState where
  projects : List String
  refs : String → List String

/-- A local library-reference operation performed by the rename path of
update_project, in order: detaching a library from a dependent, renaming
the project directory, attaching a library to a dependent. -/
inductive RenameOp where
  | detach (proj lib : String)
  | rename (oldPath newPath : String)
  | attach (proj lib : String)
  deriving DecidableEq

/-- _get_projects_referencing_library (update_project.py, lines 26-38): all
projects other than the library itself whose config lists the library among
their library references. -/
def dependentsOf (s : LocalState) (lib : String) : List String :=
  s.projects.filter fun p => p != lib && (s.refs p).contains lib

/-- library_manager.remove_lean_library_from_project as it affects the
persisted reference lists: drop the library from the dependent's config. -/
def removeRef (s : LocalState) (proj lib : String) : LocalState :=
  { s with refs := fun q => if q = proj then (s.refs q).filter (fun l => l != lib) else s.refs q }

/-- library_manager.add_lean_library_to_project as it affects the persisted
reference lists: append the library to the dependent's config. -/
def addRef (s : LocalState) (proj lib : String) : LocalState :=
  { s with refs := fun q => if q = proj then s.refs q ++ [lib] else s.refs q }

/-- project_manager.rename_project as it affects the local state: the
project directory changes name, carrying its own reference list along. -/
def renameDir (s : LocalState) (old new : String) : LocalState :=
  { projects := s.projects.map fun p => if p = old then new else p
    refs := fun q => if q = new then s.refs old else if q = old then [] else s.refs q }

/-- The first loop of the rename path (update_project.py, lines 101-102):
detach the old library reference from every dependent. -/
def detachAll (s : LocalState) (lib : String) : LocalState :=
  (dependentsOf s lib).foldl (fun t p => removeRef t p lib) s

/-- The second loop of the rename path (update_project.py, lines 107-108):
attach the new library reference to every previously enumerated dependent. -/
def attachAll (deps : List String) (s : LocalState) (lib : String) : LocalState :=
  deps.foldl (fun t p => addRef t p lib) s

/-- Every persisted library reference points to an existing project
directory. -/
def wellFormed (s : LocalState) : Bool :=
  s.projects.all fun p => (s.refs p).all fun l => s.projects.contains l

/-- The rename block of update_project (update_project.py, lines 94-108):
enumerate the dependents of the project being renamed, detach the old
reference from each, rename the directory, and reattach the new reference
to each; the flag models whether project_manager.rename_project raises, in
which case the exception propagates with the detachments already persisted
and no reattachment performed. The result carries the persisted state and
the ordered operation trace. -/
def updateProjectRename (renameFails : Bool) (s : LocalState) (old new : String) :
    Except (LocalState × List RenameOp) (LocalState × List RenameOp) :=
  let deps := dependentsOf s old
  let s1 := detachAll s old
  let detachOps := deps.map fun p => RenameOp.detach p old
  if renameFails then Except.error (s1, detachOps)
  else
    let s2 := renameDir s1 old new
    let s3 := attachAll deps s2 new
    Except.ok (s3, detachOps ++ [RenameOp.rename old new] ++ deps.map fun p => RenameOp.attach p new)

/-! ### Auxiliary predicates -/

/-- Every operation in the list is a create call. -/
def onlyCreates (l : List RemoteOp) : Prop :=
  ∀ op ∈ l, ∃ p, op = RemoteOp.create p

/-- The push-invocation invariant behind the no-duplicate-creation
guarantee: a created path is recorded in the resolved mapping, each path is
created at most once, and a path with a persisted cloud identifier is never
created. -/
def GoodState (cfg : String → LocalConfig) (st : PushState) : Prop :=
  ∀ p : String,
    (RemoteOp.create p ∈ st.ops → (lookupPath st p).isSome = true) ∧
    st.ops.count (RemoteOp.create p) ≤ 1 ∧
    ∀ c, (cfg p).cloudId = some c → RemoteOp.create p ∉ st.ops

/-- Whether a remote operation is a scalar-settings update call. -/
def RemoteOp.isUpdate : RemoteOp → Bool
  | .update _ _ _ => true
  | _ => false

/-! ### Concrete scenarios (drawn from the test suite's setups) -/

/-- A local tree with no persisted cloud identifiers or scalar settings. -/
def cfgAllNone : String → LocalConfig := fun _ =>
  { cloudId := none, leanEngine := none, pythonVenv := none }

/-- No project references any library. -/
def libsNone : String → List String := fun _ => []

/-- A project known in the cloud, with no local scalar settings. -/
def cfgCloudOnly : String → LocalConfig := fun p =>
  if p = "Python Project" then { cloudId := some 1000, leanEngine := none, pythonVenv := none }
  else { cloudId := none, leanEngine := none, pythonVenv := none }

/-- The remote record that is not pinned to the default/master engine. -/
def cloudUnpinned : QCProject :=
  { projectId := 1000, name := "Python Project", libraries := [], leanVersionId := 456,
    leanPinnedToMaster := false, leanEnvironment := none }

/-- A project and its referenced library, both known in the cloud. -/
def cfgLibDiff : String → LocalConfig := fun p =>
  if p = "Python Project" then { cloudId := some 1000, leanEngine := none, pythonVenv := none }
  else if p = "Library/Python Library" then
    { cloudId := some 1001, leanEngine := none, pythonVenv := none }
  else { cloudId := none, leanEngine := none, pythonVenv := none }

/-- The project references one local library. -/
def libsOneLib : String → List String := fun p =>
  if p = "Python Project" then ["Library/Python Library"] else []

/-- The remote record currently associated with a different library (1002)
than the locally referenced one (1001). -/
def cloudWithCSharpLib : QCProject :=
  { projectId := 1000, name := "Python Project", libraries := [1002], leanVersionId := 0,
    leanPinnedToMaster := true, leanEnvironment := none }

/-- A project whose local config pins the engine to the remote's version and
sets a python environment. -/
def cfgVenv : String → LocalConfig := fun p =>
  if p = "Python Project" then
    { cloudId := some 1000, leanEngine := some 456, pythonVenv := some 2 }
  else { cloudId := none, leanEngine := none, pythonVenv := none }

/-- The pinned remote record with no environment set. -/
def cloudVenv : QCProject :=
  { projectId := 1000, name := "Python Project", libraries := [], leanVersionId := 456,
    leanPinnedToMaster := true, leanEnvironment := none }

/-- A project whose local config differs from the remote in both scalars. -/
def cfgBoth : String → LocalConfig := fun p =>
  if p = "Python Project" then
    { cloudId := some 1000, leanEngine := some 456, pythonVenv := some 2 }
  else { cloudId := none, leanEngine := none, pythonVenv := none }

/-- The remote record at engine version 0, pinned, with no environment. -/
def cloudDefault : QCProject :=
  { projectId := 1000, name := "Python Project", libraries := [], leanVersionId := 0,
    leanPinnedToMaster := true, leanEnvironment := none }

/-- Two projects referencing a shared library, as in the rename test. -/
def sRename : LocalState :=
  { projects := ["Python Project", "CSharp Project", "Library/Python Library"]
    refs := fun p =>
      if p = "Python Project" then ["Library/Python Library"]
      else if p = "CSharp Project" then ["Library/Python Library"]
      else [] }

/-- A project config with both string keys already present. -/
def cfgStore : ProjectConfig :=
  ⟨[("engine-image", "old-image"), ("python-venv", "old-venv")]⟩

/-! ### Push-manager infrastructure lemmas -/

theorem lookup_cons_isSome {k : String} {v : Nat} {l : List (String × Nat)} {p : String}
    (h : (l.lookup p).isSome = true) : (((k, v) :: l).lookup p).isSome = true := by
  rw [List.lookup_cons]
  cases hpk : p == k <;> simp [h]

theorem resolveOne_ops (cfg : String → LocalConfig) (path : String) (st : PushState) :
    ∃ tl, (resolveOne cfg path st).ops = st.ops ++ tl ∧ onlyCreates tl := by
  unfold resolveOne
  split
  · exact ⟨[], by simp, fun op h => by simp at h⟩
  · split
    · exact ⟨[], by simp, fun op h => by simp at h⟩
    · refine ⟨[RemoteOp.create path], rfl, ?_⟩
      intro op hop
      simp at hop
      exact ⟨path, hop⟩

theorem foldl_opsExtend (f : String → PushState → PushState)
    (hf : ∀ q s, ∃ tl, (f q s).ops = s.ops ++ tl ∧ onlyCreates tl) :
    ∀ (l : List String) (st : PushState),
      ∃ tl, (l.foldl (fun s q => f q s) st).ops = st.ops ++ tl ∧ onlyCreates tl
  | [], st => ⟨[], by simp, fun op h => by simp at h⟩
  | q :: l, st => by
    obtain ⟨t1, h1, hc1⟩ := hf q st
    obtain ⟨t2, h2, hc2⟩ := foldl_opsExtend f hf l (f q st)
    refine ⟨t1 ++ t2, ?_, ?_⟩
    · rw [List.foldl_cons, h2, h1, List.append_assoc]
    · intro op hop
      rcases List.mem_append.mp hop with h | h
      exacts [hc1 op h, hc2 op h]

theorem resolveProject_ops (cfg : String → LocalConfig) (libs : String → List String)
    (fuel : Nat) :
    ∀ (path : String) (st : PushState),
      ∃ tl, (resolveProject cfg libs fuel path st).ops = st.ops ++ tl ∧ onlyCreates tl := by
  induction fuel with
  | zero =>
    intro path st
    exact ⟨[], by simp [resolveProject], fun op h => by simp at h⟩
  | succ fuel ih =>
    intro path st
    rw [resolveProject]
    split
    · exact ⟨[], by simp, fun op h => by simp at h⟩
    · obtain ⟨t1, h1, hc1⟩ := foldl_opsExtend _ (fun q s => ih q s) (libs path) st
      obtain ⟨t2, h2, hc2⟩ := resolveOne_ops cfg path _
      refine ⟨t1 ++ t2, ?_, ?_⟩
      · rw [h2, h1, List.append_assoc]
      · intro op hop
        rcases List.mem_append.mp hop with h | h
        exacts [hc1 op h, hc2 op h]

theorem foldl_preserves (P : PushState → Prop) (f : String → PushState → PushState)
    (hf : ∀ q s, P s → P (f q s)) :
    ∀ (l : List String) (st : PushState), P st → P (l.foldl (fun s q => f q s) st)
  | [], _, h => h
  | q :: l, st, h => foldl_preserves P f hf l (f q st) (hf q st h)

theorem resolveOne_good (cfg : String → LocalConfig) (path : String) (st : PushState)
    (h : GoodState cfg st) : GoodState cfg (resolveOne cfg path st) := by
  unfold resolveOne
  split
  · exact h
  · rename_i hl
    split
    · intro p
      obtain ⟨h1, h2, h3⟩ := h p
      exact ⟨fun hmem => lookup_cons_isSome (h1 hmem), h2, h3⟩
    · rename_i hc
      intro p
      obtain ⟨h1, h2, h3⟩ := h p
      have hnotin : RemoteOp.create path ∉ st.ops := by
        intro hmem
        obtain ⟨ha, _, _⟩ := h path
        have := ha hmem
        rw [show lookupPath st path = none from hl] at this
        simp at this
      refine ⟨?_, ?_, ?_⟩
      · intro hmem
        rcases List.mem_append.mp hmem with hm | hm
        · exact lookup_cons_isSome (h1 hm)
        · simp at hm
          subst hm
          simp [lookupPath, List.lookup_cons]
      · rw [List.count_append]
        by_cases hp : p = path
        · subst hp
          have h0 : st.ops.count (RemoteOp.create p) = 0 := List.count_eq_zero.mpr hnotin
          simp [h0]
        · have h0 : ([RemoteOp.create path].count (RemoteOp.create p)) = 0 := by
            refine List.count_eq_zero.mpr ?_
            simp [hp]
          omega
      · intro c hcfg hmem
        rcases List.mem_append.mp hmem with hm | hm
        · exact h3 c hcfg hm
        · simp at hm
          subst hm
          rw [hcfg] at hc
          exact absurd hc (by simp)

theorem resolveProject_good (cfg : String → LocalConfig) (libs : String → List String)
    (fuel : Nat) :
    ∀ (path : String) (st : PushState), GoodState cfg st →
      GoodState cfg (resolveProject cfg libs fuel path st) := by
  induction fuel with
  | zero => intro path st h; simpa [resolveProject] using h
  | succ fuel ih =>
    intro path st h
    rw [resolveProject]
    split
    · exact h
    · exact resolveOne_good cfg path _
        (foldl_preserves (GoodState cfg) _ (fun q s hs => ih q s hs) (libs path) st h)

theorem GoodState.extend (cfg : String → LocalConfig) {st st' : PushState}
    (h : GoodState cfg st) (hres : st'.resolved = st.resolved) {l : List RemoteOp}
    (hops : st'.ops = st.ops ++ l) (hl : ∀ p, RemoteOp.create p ∉ l) :
    GoodState cfg st' := by
  intro p
  obtain ⟨h1, h2, h3⟩ := h p
  have hlook : lookupPath st' p = lookupPath st p := by
    unfold lookupPath
    rw [hres]
  refine ⟨?_, ?_, ?_⟩
  · intro hmem
    rw [hops] at hmem
    rcases List.mem_append.mp hmem with hm | hm
    · rw [hlook]; exact h1 hm
    · exact absurd hm (hl p)
  · rw [hops, List.count_append]
    have h0 : l.count (RemoteOp.create p) = 0 := List.count_eq_zero.mpr (hl p)
    omega
  · intro c hc hmem
    rw [hops] at hmem
    rcases List.mem_append.mp hmem with hm | hm
    · exact h3 c hc hm
    · exact hl p hm

theorem pushProject_eq_of_lookup_none (cfg : String → LocalConfig) (libs : String → List String)
    (fuel : Nat) (path : String) (st : PushState)
    (h1 : lookupPath (resolveProject cfg libs fuel path st) path = none) :
    pushProject cfg libs fuel path st = resolveProject cfg libs fuel path st := by
  simp only [pushProject, h1]

theorem pushProject_eq_of_find_none (cfg : String → LocalConfig) (libs : String → List String)
    (fuel : Nat) (path : String) (st : PushState) (pid : Nat)
    (h1 : lookupPath (resolveProject cfg libs fuel path st) path = some pid)
    (h2 : dirFind (resolveProject cfg libs fuel path st).directory pid = none) :
    pushProject cfg libs fuel path st = resolveProject cfg libs fuel path st := by
  simp only [pushProject, h1, h2]

theorem pushProject_eq_of_found (cfg : String → LocalConfig) (libs : String → List String)
    (fuel : Nat) (path : String) (st : PushState) (pid : Nat) (cp : QCProject)
    (h1 : lookupPath (resolveProject cfg libs fuel path st) path = some pid)
    (h2 : dirFind (resolveProject cfg libs fuel path st).directory pid = some cp) :
    pushProject cfg libs fuel path st =
      { resolveProject cfg libs fuel path st with
        ops := (resolveProject cfg libs fuel path st).ops ++
          (libraryDiffOps pid cp.libraries
              ((libs path).filterMap (lookupPath (resolveProject cfg libs fuel path st))) ++
            ([RemoteOp.uploadFiles pid] ++
              updateOps pid
                (scalarUpdateFields (cfg path).leanEngine (cfg path).pythonVenv cp)))
        directory := dirSetLibraries (resolveProject cfg libs fuel path st).directory pid
          ((libs path).filterMap (lookupPath (resolveProject cfg libs fuel path st))) } := by
  simp only [pushProject, h1, h2]
  simp [List.append_assoc]

theorem pushProject_ops_extends (cfg : String → LocalConfig) (libs : String → List String)
    (fuel : Nat) (path : String) (st : PushState) :
    ∃ tl, (pushProject cfg libs fuel path st).ops =
      (resolveProject cfg libs fuel path st).ops ++ tl := by
  cases h1 : lookupPath (resolveProject cfg libs fuel path st) path with
  | none =>
    rw [pushProject_eq_of_lookup_none cfg libs fuel path st h1]
    exact ⟨[], by simp⟩
  | some pid =>
    cases h2 : dirFind (resolveProject cfg libs fuel path st).directory pid with
    | none =>
      rw [pushProject_eq_of_find_none cfg libs fuel path st pid h1 h2]
      exact ⟨[], by simp⟩
    | some cp =>
      rw [pushProject_eq_of_found cfg libs fuel path st pid cp h1 h2]
      exact ⟨_, rfl⟩

theorem create_notMem_diff (p : String) (pid : Nat) (current desired : List Nat) :
    RemoteOp.create p ∉ libraryDiffOps pid current desired := by
  unfold libraryDiffOps
  intro hmem
  rcases List.mem_append.mp hmem with hm | hm <;> simp [List.mem_map] at hm

theorem create_notMem_updateOps (p : String) (pid : Nat) (f : UpdateFields) :
    RemoteOp.create p ∉ updateOps pid f := by
  unfold updateOps
  split <;> simp

theorem pushProject_good (cfg : String → LocalConfig) (libs : String → List String)
    (fuel : Nat) (path : String) (st : PushState) (h : GoodState cfg st) :
    GoodState cfg (pushProject cfg libs fuel path st) := by
  have hres := resolveProject_good cfg libs fuel path st h
  cases h1 : lookupPath (resolveProject cfg libs fuel path st) path with
  | none => rw [pushProject_eq_of_lookup_none cfg libs fuel path st h1]; exact hres
  | some pid =>
    cases h2 : dirFind (resolveProject cfg libs fuel path st).directory pid with
    | none => rw [pushProject_eq_of_find_none cfg libs fuel path st pid h1 h2]; exact hres
    | some cp =>
      rw [pushProject_eq_of_found cfg libs fuel path st pid cp h1 h2]
      refine GoodState.extend cfg hres rfl rfl ?_
      intro p hmem
      rcases List.mem_append.mp hmem with hm | hm
      · exact create_notMem_diff p pid _ _ hm
      · rcases List.mem_append.mp hm with hm2 | hm2
        · simp at hm2
        · exact create_notMem_updateOps p pid _ hm2

theorem pushProjects_good (cfg : String → LocalConfig) (libs : String → List String)
    (fuel : Nat) (paths : List String) (st : PushState) (h : GoodState cfg st) :
    GoodState cfg (pushProjects cfg libs fuel paths st) :=
  foldl_preserves (GoodState cfg) _ (fun q s hs => pushProject_good cfg libs fuel q s hs)
    paths st h

theorem initState_good (cfg : String → LocalConfig) (dir : List QCProject) (nid : Nat) :
    GoodState cfg (initState dir nid) := by
  intro p
  refine ⟨?_, ?_, ?_⟩ <;> simp [initState]

theorem count_addLibrary_diff (pid q x : Nat) (current desired : List Nat)
    (hd : desired.Nodup) :
    (libraryDiffOps pid current desired).count (RemoteOp.addLibrary q x) =
      if q = pid ∧ x ∈ desired ∧ x ∉ current then 1 else 0 := by
  unfold libraryDiffOps
  rw [List.count_append]
  have hdel :
      ((current.filter fun i => decide (i ∉ desired)).map
          (RemoteOp.deleteLibrary pid)).count (RemoteOp.addLibrary q x) = 0 := by
    refine List.count_eq_zero.mpr ?_
    simp [List.mem_map]
  rw [hdel, Nat.add_zero]
  by_cases hq : q = pid
  · subst hq
    rw [List.count_map_of_injective _ _ (fun a b hab => by injection hab) x]
    by_cases hxc : x ∈ current
    · have hnot : x ∉ desired.filter fun i => decide (i ∉ current) := by
        simp [List.mem_filter, hxc]
      rw [List.count_eq_zero.mpr hnot]
      simp [hxc]
    · rw [List.count_filter (by simp [hxc])]
      rw [List.count_eq_of_nodup hd]
      by_cases hxd : x ∈ desired <;> simp [hxd, hxc]
  · have hnot : RemoteOp.addLibrary q x ∉
        (desired.filter fun i => decide (i ∉ current)).map (RemoteOp.addLibrary pid) := by
      simp only [List.mem_map, not_exists, not_and]
      intro a _ heq
      injection heq with hh1 hh2
      exact hq hh1.symm
    rw [List.count_eq_zero.mpr hnot]
    simp [hq]

theorem count_deleteLibrary_diff (pid q x : Nat) (current desired : List Nat)
    (hc : current.Nodup) :
    (libraryDiffOps pid current desired).count (RemoteOp.deleteLibrary q x) =
      if q = pid ∧ x ∈ current ∧ x ∉ desired then 1 else 0 := by
  unfold libraryDiffOps
  rw [List.count_append]
  have hadd :
      ((desired.filter fun i => decide (i ∉ current)).map
          (RemoteOp.addLibrary pid)).count (RemoteOp.deleteLibrary q x) = 0 := by
    refine List.count_eq_zero.mpr ?_
    simp [List.mem_map]
  rw [hadd, Nat.zero_add]
  by_cases hq : q = pid
  · subst hq
    rw [List.count_map_of_injective _ _ (fun a b hab => by injection hab) x]
    by_cases hxd : x ∈ desired
    · have hnot : x ∉ current.filter fun i => decide (i ∉ desired) := by
        simp [List.mem_filter, hxd]
      rw [List.count_eq_zero.mpr hnot]
      simp [hxd]
    · rw [List.count_filter (by simp [hxd])]
      rw [List.count_eq_of_nodup hc]
      by_cases hxc : x ∈ current <;> simp [hxd, hxc]
  · have hnot : RemoteOp.deleteLibrary q x ∉
        (current.filter fun i => decide (i ∉ desired)).map (RemoteOp.deleteLibrary pid) := by
      simp only [List.mem_map, not_exists, not_and]
      intro a _ heq
      injection heq with hh1 hh2
      exact hq hh1.symm
    rw [List.count_eq_zero.mpr hnot]
    simp [hq]

theorem count_addLibrary_onlyCreates (tl : List RemoteOp) (h : onlyCreates tl) (q x : Nat) :
    tl.count (RemoteOp.addLibrary q x) = 0 := by
  refine List.count_eq_zero.mpr fun hmem => ?_
  obtain ⟨p, hp⟩ := h _ hmem
  cases hp

theorem count_deleteLibrary_onlyCreates (tl : List RemoteOp) (h : onlyCreates tl) (q x : Nat) :
    tl.count (RemoteOp.deleteLibrary q x) = 0 := by
  refine List.count_eq_zero.mpr fun hmem => ?_
  obtain ⟨p, hp⟩ := h _ hmem
  cases hp

theorem count_addLibrary_updateOps (pid : Nat) (f : UpdateFields) (q x : Nat) :
    (updateOps pid f).count (RemoteOp.addLibrary q x) = 0 := by
  unfold updateOps
  split <;> simp [List.count_eq_zero]

theorem count_deleteLibrary_updateOps (pid : Nat) (f : UpdateFields) (q x : Nat) :
    (updateOps pid f).count (RemoteOp.deleteLibrary q x) = 0 := by
  unfold updateOps
  split <;> simp [List.count_eq_zero]

theorem update_notMem_diff (q : Nat) (le pv : Option Int) (pid : Nat)
    (current desired : List Nat) :
    RemoteOp.update q le pv ∉ libraryDiffOps pid current desired := by
  unfold libraryDiffOps
  intro hmem
  rcases List.mem_append.mp hmem with hm | hm <;> simp [List.mem_map] at hm

theorem update_notMem_onlyCreates (tl : List RemoteOp) (h : onlyCreates tl) (q : Nat)
    (le pv : Option Int) : RemoteOp.update q le pv ∉ tl := by
  intro hmem
  obtain ⟨p, hp⟩ := h _ hmem
  cases hp

theorem mem_updateOps_elim (pid : Nat) (f : UpdateFields) (q : Nat) (le pv : Option Int)
    (h : RemoteOp.update q le pv ∈ updateOps pid f) :
    q = pid ∧ le = f.lean_engine ∧ pv = f.python_venv := by
  unfold updateOps at h
  split at h
  · simp at h
  · simp at h
    obtain ⟨hq, hle, hpv⟩ := h
    exact ⟨hq, hle, hpv⟩

theorem updateOp_mem_updateOps (pid : Nat) (f : UpdateFields) (hf : f ≠ ⟨none, none⟩) :
    RemoteOp.update pid f.lean_engine f.python_venv ∈ updateOps pid f := by
  unfold updateOps
  split
  · rename_i heq
    exact absurd heq hf
  · simp

theorem update_mem_push (cfg : String → LocalConfig) (libs : String → List String)
    (fuel : Nat) (path : String) (st : PushState) (pid : Nat) (cp : QCProject)
    (h1 : lookupPath (resolveProject cfg libs fuel path st) path = some pid)
    (h2 : dirFind (resolveProject cfg libs fuel path st).directory pid = some cp)
    (hf : scalarUpdateFields (cfg path).leanEngine (cfg path).pythonVenv cp ≠ ⟨none, none⟩) :
    RemoteOp.update pid
        (scalarUpdateFields (cfg path).leanEngine (cfg path).pythonVenv cp).lean_engine
        (scalarUpdateFields (cfg path).leanEngine (cfg path).pythonVenv cp).python_venv ∈
      (pushProject cfg libs fuel path st).ops := by
  rw [pushProject_eq_of_found cfg libs fuel path st pid cp h1 h2]
  refine List.mem_append.mpr (Or.inr ?_)
  refine List.mem_append.mpr (Or.inr ?_)
  exact List.mem_append.mpr (Or.inr (updateOp_mem_updateOps pid _ hf))

theorem update_mem_push_elim (cfg : String → LocalConfig) (libs : String → List String)
    (fuel : Nat) (path : String) (st : PushState) (pid : Nat) (cp : QCProject)
    (h1 : lookupPath (resolveProject cfg libs fuel path st) path = some pid)
    (h2 : dirFind (resolveProject cfg libs fuel path st).directory pid = some cp)
    (q : Nat) (le pv : Option Int)
    (hmem : RemoteOp.update q le pv ∈ (pushProject cfg libs fuel path st).ops) :
    RemoteOp.update q le pv ∈ st.ops ∨
      (q = pid ∧
        le = (scalarUpdateFields (cfg path).leanEngine (cfg path).pythonVenv cp).lean_engine ∧
        pv = (scalarUpdateFields (cfg path).leanEngine (cfg path).pythonVenv cp).python_venv) := by
  rw [pushProject_eq_of_found cfg libs fuel path st pid cp h1 h2] at hmem
  obtain ⟨tl, htl, hctl⟩ := resolveProject_ops cfg libs fuel path st
  rcases List.mem_append.mp hmem with hm | hm
  · rw [htl] at hm
    rcases List.mem_append.mp hm with hm2 | hm2
    · exact Or.inl hm2
    · exact absurd hm2 (update_notMem_onlyCreates tl hctl q le pv)
  · rcases List.mem_append.mp hm with hm2 | hm2
    · exact absurd hm2 (update_notMem_diff q le pv pid _ _)
    · rcases List.mem_append.mp hm2 with hm3 | hm3
      · simp at hm3
      · exact Or.inr (mem_updateOps_elim pid _ q le pv hm3)

theorem countP_isUpdate_diff (pid : Nat) (current desired : List Nat) :
    (libraryDiffOps pid current desired).countP RemoteOp.isUpdate = 0 := by
  rw [List.countP_eq_zero]
  intro op hop
  unfold libraryDiffOps at hop
  rcases List.mem_append.mp hop with hm | hm <;>
    · simp [List.mem_map] at hm
      obtain ⟨a, _, ha⟩ := hm
      simp [← ha, RemoteOp.isUpdate]

theorem countP_isUpdate_onlyCreates (tl : List RemoteOp) (h : onlyCreates tl) :
    tl.countP RemoteOp.isUpdate = 0 := by
  rw [List.countP_eq_zero]
  intro op hop
  obtain ⟨p, hp⟩ := h _ hop
  simp [hp, RemoteOp.isUpdate]

theorem countP_isUpdate_updateOps (pid : Nat) (f : UpdateFields) :
    (updateOps pid f).countP RemoteOp.isUpdate = if f = ⟨none, none⟩ then 0 else 1 := by
  unfold updateOps
  split <;> rename_i h <;> simp [h, RemoteOp.isUpdate]

/-! ### Project-update infrastructure lemmas -/

theorem lookup_filter_ne (l : List (String × String)) (k : String) :
    (l.filter fun e => e.1 != k).lookup k = none := by
  induction l with
  | nil => rfl
  | cons e l ih =>
    rw [List.filter_cons]
    by_cases h : e.1 = k
    · simp [h, ih]
    · have hne : (e.1 != k) = true := by simp [h]
      rw [if_pos hne, List.lookup_cons]
      have hke : (k == e.1) = false := beq_eq_false_iff_ne.mpr fun hk => h hk.symm
      simp [hke, ih]

theorem projectConfig_get_set (c : ProjectConfig) (k v : String) :
    (c.set k v).get k = some v := by
  simp [ProjectConfig.get, ProjectConfig.set, List.lookup_cons]

theorem projectConfig_get_delete (c : ProjectConfig) (k : String) :
    (c.delete k).get k = none :=
  lookup_filter_ne c.entries k

theorem mem_dependentsOf (s : LocalState) (lib p : String) :
    p ∈ dependentsOf s lib ↔ p ∈ s.projects ∧ p ≠ lib ∧ lib ∈ s.refs p := by
  simp [dependentsOf, List.mem_filter, List.contains, List.elem_iff, and_assoc]

theorem refs_foldl_removeRef (lib : String) :
    ∀ (deps : List String) (s : LocalState) (q : String),
      ((deps.foldl (fun t p => removeRef t p lib) s).refs q) =
        if q ∈ deps then (s.refs q).filter (fun l => l != lib) else s.refs q := by
  intro deps
  induction deps with
  | nil => intro s q; simp
  | cons d deps ih =>
    intro s q
    rw [List.foldl_cons, ih]
    by_cases hq : q ∈ deps
    · by_cases hqd : q = d
      · subst hqd
        simp [hq, removeRef, List.filter_filter]
      · simp [hq, removeRef, hqd, List.mem_cons]
    · by_cases hqd : q = d
      · subst hqd
        simp [hq, removeRef]
      · simp [hq, removeRef, hqd, List.mem_cons]

theorem projects_foldl_removeRef (lib : String) :
    ∀ (deps : List String) (s : LocalState),
      (deps.foldl (fun t p => removeRef t p lib) s).projects = s.projects := by
  intro deps
  induction deps with
  | nil => intro s; rfl
  | cons d deps ih => intro s; rw [List.foldl_cons, ih]; rfl

theorem refs_foldl_addRef (lib : String) :
    ∀ (deps : List String), deps.Nodup → ∀ (s : LocalState) (q : String),
      ((deps.foldl (fun t p => addRef t p lib) s).refs q) =
        if q ∈ deps then s.refs q ++ [lib] else s.refs q := by
  intro deps
  induction deps with
  | nil => intro _ s q; simp
  | cons d deps ih =>
    intro hnd s q
    rw [List.foldl_cons, ih hnd.of_cons]
    by_cases hq : q ∈ deps
    · have hqd : q ≠ d := fun h => (List.nodup_cons.mp hnd).1 (h ▸ hq)
      simp [hq, addRef, hqd, List.mem_cons]
    · by_cases hqd : q = d
      · subst hqd
        simp [hq, addRef]
      · simp [hq, addRef, hqd, List.mem_cons]

theorem projects_foldl_addRef (lib : String) :
    ∀ (deps : List String) (s : LocalState),
      (deps.foldl (fun t p => addRef t p lib) s).projects = s.projects := by
  intro deps
  induction deps with
  | nil => intro s; rfl
  | cons d deps ih => intro s; rw [List.foldl_cons, ih]; rfl

theorem wellFormed_iff (s : LocalState) :
    wellFormed s = true ↔ ∀ p ∈ s.projects, ∀ l ∈ s.refs p, l ∈ s.projects := by
  simp [wellFormed, List.all_eq_true, List.contains, List.elem_iff]

theorem wellFormed_detachAll (s : LocalState) (old : String) (hwf : wellFormed s = true) :
    wellFormed (detachAll s old) = true := by
  rw [wellFormed_iff] at hwf ⊢
  unfold detachAll
  rw [projects_foldl_removeRef]
  intro p hp l hl
  rw [refs_foldl_removeRef] at hl
  split at hl
  · exact hwf p hp l (List.mem_of_mem_filter hl)
  · exact hwf p hp l hl

theorem refs_detachAll (s : LocalState) (old q : String) :
    (detachAll s old).refs q =
      if q ∈ dependentsOf s old then (s.refs q).filter (fun l => l != old) else s.refs q :=
  refs_foldl_removeRef old (dependentsOf s old) s q

theorem no_ref_to_old_after_detach (s : LocalState) (old q : String)
    (hq : q ∈ s.projects) (hqold : q ≠ old) :
    old ∉ (detachAll s old).refs q := by
  rw [refs_detachAll]
  split
  · intro hmem
    rcases List.mem_filter.mp hmem with ⟨_, hne⟩
    simp at hne
  · rename_i hdep
    intro hmem
    exact hdep ((mem_dependentsOf s old q).mpr ⟨hq, hqold, hmem⟩)

theorem wellFormed_rename_detach (s : LocalState) (old new : String)
    (hwf : wellFormed s = true) (hnew : new ∉ s.projects)
    (hself : old ∉ s.refs old) :
    wellFormed (renameDir (detachAll s old) old new) = true := by
  have hwfP := (wellFormed_iff s).mp hwf
  rw [wellFormed_iff]
  have hprojs : (renameDir (detachAll s old) old new).projects =
      s.projects.map fun x => if x = old then new else x := by
    show ((detachAll s old).projects.map fun p => if p = old then new else p) = _
    rw [detachAll, projects_foldl_removeRef]
  have hrefs : ∀ q, (renameDir (detachAll s old) old new).refs q =
      if q = new then (detachAll s old).refs old
      else if q = old then [] else (detachAll s old).refs q := fun q => rfl
  intro p hp l hl
  rw [hprojs] at hp ⊢
  rw [List.mem_map] at hp
  obtain ⟨p0, hp0, hp0e⟩ := hp
  by_cases hp0old : p0 = old
  · have hpe : p = new := by rw [← hp0e, if_pos hp0old]
    subst hpe
    rw [hrefs, if_pos rfl] at hl
    have hrold : (detachAll s old).refs old = s.refs old := by
      rw [refs_detachAll]
      have hnotdep : old ∉ dependentsOf s old := by
        rw [mem_dependentsOf]
        rintro ⟨_, h2, _⟩
        exact h2 rfl
      rw [if_neg hnotdep]
    rw [hrold] at hl
    have holdproj : old ∈ s.projects := hp0old ▸ hp0
    have hlproj : l ∈ s.projects := hwfP old holdproj l hl
    have hlold : l ≠ old := fun h => hself (h ▸ hl)
    exact List.mem_map.mpr ⟨l, hlproj, if_neg hlold⟩
  · have hpe : p = p0 := by rw [← hp0e, if_neg hp0old]
    subst hpe
    have hpnew : p ≠ new := fun h => hnew (h ▸ hp0)
    rw [hrefs, if_neg hpnew, if_neg hp0old] at hl
    have hwf1 := (wellFormed_iff _).mp (wellFormed_detachAll s old hwf)
    have hp1 : p ∈ (detachAll s old).projects := by
      rw [detachAll, projects_foldl_removeRef]; exact hp0
    have hlproj : l ∈ (detachAll s old).projects := hwf1 p hp1 l hl
    rw [detachAll, projects_foldl_removeRef] at hlproj
    have hlold : l ≠ old := by
      intro h
      subst h
      exact no_ref_to_old_after_detach s l p hp0 hp0old hl
    exact List.mem_map.mpr ⟨l, hlproj, if_neg hlold⟩

theorem projects_attachAll (deps : List String) (s : LocalState) (lib : String) :
    (attachAll deps s lib).projects = s.projects :=
  projects_foldl_addRef lib deps s

theorem wellFormed_attachAll (s2 : LocalState) (deps : List String) (lib : String)
    (hnd : deps.Nodup) (hwf2 : wellFormed s2 = true) (hlib : lib ∈ s2.projects) :
    wellFormed (attachAll deps s2 lib) = true := by
  rw [wellFormed_iff] at hwf2 ⊢
  intro p hp l hl
  rw [projects_attachAll] at hp ⊢
  unfold attachAll at hl
  rw [refs_foldl_addRef lib deps hnd] at hl
  split at hl
  · rcases List.mem_append.mp hl with hm | hm
    · exact hwf2 p hp l hm
    · simp at hm
      subst hm
      exact hlib
  · exact hwf2 p hp l hl

/-! ### Claim theorems -/

/-- Claim C1: for every push of a project, with the remote project's current
library-association set and the desired set derived from local library
references, the engine issues exactly one add call per identifier in
desired minus current and exactly one delete call per identifier in current
minus desired, and no other add/delete calls; an identifier present in both
sets triggers no call, and for current = {1,2,3}, desired = {2,3,4} the
emitted calls are exactly add(4) and delete(1). -/
theorem push_emits_exact_library_association_diff (cfg : String → LocalConfig)
    (libs : String → List String) (fuel : Nat) (path : String) (st : PushState)
    (pid : Nat) (cp : QCProject)
    (h0 : st.ops = [])
    (h1 : lookupPath (resolveProject cfg libs fuel path st) path = some pid)
    (h2 : dirFind (resolveProject cfg libs fuel path st).directory pid = some cp)
    (hcur : cp.libraries.Nodup)
    (hdes : ((libs path).filterMap (lookupPath (resolveProject cfg libs fuel path st))).Nodup) :
    (∀ q x, (pushProject cfg libs fuel path st).ops.count (RemoteOp.addLibrary q x) =
      if q = pid ∧
          x ∈ (libs path).filterMap (lookupPath (resolveProject cfg libs fuel path st)) ∧
          x ∉ cp.libraries then 1 else 0) ∧
    (∀ q x, (pushProject cfg libs fuel path st).ops.count (RemoteOp.deleteLibrary q x) =
      if q = pid ∧ x ∈ cp.libraries ∧
          x ∉ (libs path).filterMap (lookupPath (resolveProject cfg libs fuel path st)) then 1
        else 0) ∧
    libraryDiffOps 9 [1, 2, 3] [2, 3, 4] =
      [RemoteOp.addLibrary 9 4, RemoteOp.deleteLibrary 9 1] := by
  obtain ⟨tl, htl, hctl⟩ := resolveProject_ops cfg libs fuel path st
  rw [h0, List.nil_append] at htl
  refine ⟨?_, ?_, by decide⟩
  · intro q x
    rw [pushProject_eq_of_found cfg libs fuel path st pid cp h1 h2]
    simp only [htl, List.count_append]
    rw [count_addLibrary_onlyCreates tl hctl q x,
      count_addLibrary_diff pid q x cp.libraries _ hdes,
      count_addLibrary_updateOps pid _ q x]
    have hup : ([RemoteOp.uploadFiles pid].count (RemoteOp.addLibrary q x)) = 0 := by
      simp [List.count_eq_zero]
    rw [hup]
    omega
  · intro q x
    rw [pushProject_eq_of_found cfg libs fuel path st pid cp h1 h2]
    simp only [htl, List.count_append]
    rw [count_deleteLibrary_onlyCreates tl hctl q x,
      count_deleteLibrary_diff pid q x cp.libraries _ hcur,
      count_deleteLibrary_updateOps pid _ q x]
    have hup : ([RemoteOp.uploadFiles pid].count (RemoteOp.deleteLibrary q x)) = 0 := by
      simp [List.count_eq_zero]
    rw [hup]
    omega

/-- Witness for C1: a project with remote id 1000 whose remote record is
associated with library 1002 while the local config references the library
with remote id 1001; the push emits exactly one add(1000, 1001) and one
delete(1000, 1002). -/
theorem push_emits_exact_library_association_diff_witness :
    (pushProject cfgLibDiff libsOneLib 2 "Python Project"
        (initState [cloudWithCSharpLib] 5000)).ops.count (RemoteOp.addLibrary 1000 1001) = 1 ∧
    (pushProject cfgLibDiff libsOneLib 2 "Python Project"
        (initState [cloudWithCSharpLib] 5000)).ops.count (RemoteOp.deleteLibrary 1000 1002) = 1 := by
  have h := push_emits_exact_library_association_diff cfgLibDiff libsOneLib 2 "Python Project"
    (initState [cloudWithCSharpLib] 5000) 1000 cloudWithCSharpLib rfl rfl rfl
    (by decide) (by decide)
  exact ⟨(h.1 1000 1001).trans (by decide), (h.2.1 1000 1002).trans (by decide)⟩

/-- Claim C2: for a dependency chain where A depends on B and B depends on C
and none of the three exists remotely yet, the push's remote create call for
C occurs before the one for B, and the one for B before the one for A: the
resolution trace is exactly create(C), create(B), create(A), and the full
push trace extends it. -/
theorem push_creates_dependencies_before_dependents (cfg : String → LocalConfig)
    (A B C : String) (hAB : A ≠ B) (hAC : A ≠ C) (hBC : B ≠ C)
    (hcA : (cfg A).cloudId = none) (hcB : (cfg B).cloudId = none) (hcC : (cfg C).cloudId = none)
    (dir : List QCProject) (nid : Nat) :
    (resolveProject cfg (fun p => if p = A then [B] else if p = B then [C] else []) 3 A
        (initState dir nid)).ops =
      [RemoteOp.create C, RemoteOp.create B, RemoteOp.create A] ∧
    ∃ rest,
      (pushProject cfg (fun p => if p = A then [B] else if p = B then [C] else []) 3 A
          (initState dir nid)).ops =
        [RemoteOp.create C, RemoteOp.create B, RemoteOp.create A] ++ rest := by
  have e1 : (A == B) = false := beq_eq_false_iff_ne.mpr hAB
  have e2 : (A == C) = false := beq_eq_false_iff_ne.mpr hAC
  have e3 : (B == C) = false := beq_eq_false_iff_ne.mpr hBC
  have hres :
      (resolveProject cfg (fun p => if p = A then [B] else if p = B then [C] else []) 3 A
          (initState dir nid)).ops =
        [RemoteOp.create C, RemoteOp.create B, RemoteOp.create A] := by
    simp [resolveProject, resolveOne, lookupPath, initState, List.lookup, hAB, hAC, hBC,
      Ne.symm hAB, Ne.symm hAC, Ne.symm hBC, hcA, hcB, hcC, e1, e2, e3]
  refine ⟨hres, ?_⟩
  obtain ⟨tl, htl⟩ := pushProject_ops_extends cfg
    (fun p => if p = A then [B] else if p = B then [C] else []) 3 A (initState dir nid)
  exact ⟨tl, by rw [htl, hres]⟩

/-- Witness for C2: the chain on the concrete paths A, B, C. -/
theorem push_creates_dependencies_before_dependents_witness :
    (resolveProject cfgAllNone (fun p => if p = "A" then ["B"] else if p = "B" then ["C"] else [])
        3 "A" (initState [] 0)).ops =
      [RemoteOp.create "C", RemoteOp.create "B", RemoteOp.create "A"] ∧
    ∃ rest,
      (pushProject cfgAllNone (fun p => if p = "A" then ["B"] else if p = "B" then ["C"] else [])
          3 "A" (initState [] 0)).ops =
        [RemoteOp.create "C", RemoteOp.create "B", RemoteOp.create "A"] ++ rest :=
  push_creates_dependencies_before_dependents cfgAllNone "A" "B" "C"
    (by decide) (by decide) (by decide) rfl rfl rfl [] 0

/-- Claim C3: when the remote record reports it is not pinned to the
default/master engine and the local config has no lean-engine key, the
scalar reconciler's engine field is the default sentinel -1 and the push
issues an update call carrying lean_engine = -1. -/
theorem push_defaults_engine_when_unpinned_and_unset (cfg : String → LocalConfig)
    (libs : String → List String) (fuel : Nat) (path : String) (st : PushState)
    (pid : Nat) (cp : QCProject)
    (h1 : lookupPath (resolveProject cfg libs fuel path st) path = some pid)
    (h2 : dirFind (resolveProject cfg libs fuel path st).directory pid = some cp)
    (he : (cfg path).leanEngine = none) (hp : cp.leanPinnedToMaster = false) :
    (scalarUpdateFields (cfg path).leanEngine (cfg path).pythonVenv cp).lean_engine =
      some (-1) ∧
    RemoteOp.update pid (some (-1))
        (scalarUpdateFields (cfg path).leanEngine (cfg path).pythonVenv cp).python_venv ∈
      (pushProject cfg libs fuel path st).ops := by
  have hle : (scalarUpdateFields (cfg path).leanEngine (cfg path).pythonVenv cp).lean_engine =
      some (-1) := by
    simp [scalarUpdateFields, he, hp]
  refine ⟨hle, ?_⟩
  have hf : scalarUpdateFields (cfg path).leanEngine (cfg path).pythonVenv cp ≠
      ⟨none, none⟩ := by
    intro heq
    rw [heq] at hle
    simp at hle
  have hm := update_mem_push cfg libs fuel path st pid cp h1 h2 hf
  rwa [hle] at hm

/-- Witness for C3: a project with no local lean-engine key pushed against a
remote record with pinned_to_default = false receives update(1000, -1). -/
theorem push_defaults_engine_when_unpinned_and_unset_witness :
    RemoteOp.update 1000 (some (-1)) none ∈
      (pushProject cfgCloudOnly libsNone 1 "Python Project"
        (initState [cloudUnpinned] 5000)).ops :=
  (push_defaults_engine_when_unpinned_and_unset cfgCloudOnly libsNone 1 "Python Project"
    (initState [cloudUnpinned] 5000) 1000 cloudUnpinned rfl rfl rfl rfl).2

/-- Counterexample to C4 as stated: with no local engine value but a remote
record reporting it is not pinned to the default engine, the push does emit
an update call whose lean_engine field is the sentinel -1, not an update
with no lean_engine field. -/
theorem push_engine_skip_counterexample :
    RemoteOp.update 1000 (some (-1)) none ∈
      (pushProject cfgCloudOnly libsNone 1 "Python Project"
        (initState [cloudUnpinned] 5000)).ops ∧
    (some (-1) : Option Int) ≠ none := by
  exact ⟨by decide, by decide⟩

/-- Claim C4 (amended): for every push of a project whose local config has
no engine value, engine-pin reconciliation pushes no lean_engine field when
the remote record is pinned to the default engine; when the remote record
is not pinned to the default engine, the only lean_engine value ever pushed
is the default sentinel -1 (never a concrete version). -/
theorem push_engine_skip_amended (cfg : String → LocalConfig)
    (libs : String → List String) (fuel : Nat) (path : String) (st : PushState)
    (pid : Nat) (cp : QCProject)
    (h1 : lookupPath (resolveProject cfg libs fuel path st) path = some pid)
    (h2 : dirFind (resolveProject cfg libs fuel path st).directory pid = some cp)
    (he : (cfg path).leanEngine = none) :
    (cp.leanPinnedToMaster = true → ∀ q le pv,
      RemoteOp.update q le pv ∈ (pushProject cfg libs fuel path st).ops →
        RemoteOp.update q le pv ∈ st.ops ∨ le = none) ∧
    (cp.leanPinnedToMaster = false → ∀ q le pv,
      RemoteOp.update q le pv ∈ (pushProject cfg libs fuel path st).ops →
        RemoteOp.update q le pv ∈ st.ops ∨ le = some (-1)) := by
  constructor
  · intro hpin q le pv hmem
    rcases update_mem_push_elim cfg libs fuel path st pid cp h1 h2 q le pv hmem with
      hm | ⟨_, hle, _⟩
    · exact Or.inl hm
    · right
      rw [hle]
      simp [scalarUpdateFields, he, hpin]
  · intro hpin q le pv hmem
    rcases update_mem_push_elim cfg libs fuel path st pid cp h1 h2 q le pv hmem with
      hm | ⟨_, hle, _⟩
    · exact Or.inl hm
    · right
      rw [hle]
      simp [scalarUpdateFields, he, hpin]

/-- Witness for C4 (amended): in the not-pinned case the update call that
occurs carries exactly the sentinel -1. -/
theorem push_engine_skip_amended_witness :
    RemoteOp.update 1000 (some (-1)) none ∈
      (pushProject cfgCloudOnly libsNone 1 "Python Project"
        (initState [cloudUnpinned] 5000)).ops ∧
    (RemoteOp.update 1000 (some (-1)) none ∈ (initState [cloudUnpinned] 5000).ops ∨
      (some (-1) : Option Int) = some (-1)) :=
  ⟨by decide,
    (push_engine_skip_amended cfgCloudOnly libsNone 1 "Python Project"
        (initState [cloudUnpinned] 5000) 1000 cloudUnpinned rfl rfl rfl).2 rfl
      1000 (some (-1)) none (by decide)⟩

/-- Claim C5: for every push of a project whose local config has no
environment value, no python_venv field appears in any update call emitted
by the push, regardless of the remote environment; and a local environment
value differing from the remote's is pushed. -/
theorem push_environment_omission_and_push (cfg : String → LocalConfig)
    (libs : String → List String) (fuel : Nat) (path : String) (st : PushState)
    (pid : Nat) (cp : QCProject)
    (h1 : lookupPath (resolveProject cfg libs fuel path st) path = some pid)
    (h2 : dirFind (resolveProject cfg libs fuel path st).directory pid = some cp) :
    ((cfg path).pythonVenv = none → ∀ q le pv,
      RemoteOp.update q le pv ∈ (pushProject cfg libs fuel path st).ops →
        RemoteOp.update q le pv ∈ st.ops ∨ pv = none) ∧
    (∀ v : Int, (cfg path).pythonVenv = some v → some v ≠ cp.leanEnvironment →
      RemoteOp.update pid
          (scalarUpdateFields (cfg path).leanEngine (cfg path).pythonVenv cp).lean_engine
          (some v) ∈ (pushProject cfg libs fuel path st).ops) := by
  constructor
  · intro hv q le pv hmem
    rcases update_mem_push_elim cfg libs fuel path st pid cp h1 h2 q le pv hmem with
      hm | ⟨_, _, hpv⟩
    · exact Or.inl hm
    · right
      rw [hpv]
      simp [scalarUpdateFields, hv]
  · intro v hv hne
    have hpv : (scalarUpdateFields (cfg path).leanEngine (cfg path).pythonVenv cp).python_venv =
        some v := by
      simp [scalarUpdateFields, hv, hne]
    have hf : scalarUpdateFields (cfg path).leanEngine (cfg path).pythonVenv cp ≠
        ⟨none, none⟩ := by
      intro heq
      rw [heq] at hpv
      simp at hpv
    have hm := update_mem_push cfg libs fuel path st pid cp h1 h2 hf
    rwa [hpv] at hm

/-- Witness for C5: a local python-venv value 2 differing from the remote's
unset environment is pushed as update(1000, python_venv = 2). -/
theorem push_environment_omission_and_push_witness :
    RemoteOp.update 1000 none (some 2) ∈
      (pushProject cfgVenv libsNone 1 "Python Project" (initState [cloudVenv] 5000)).ops :=
  (push_environment_omission_and_push cfgVenv libsNone 1 "Python Project"
    (initState [cloudVenv] 5000) 1000 cloudVenv rfl rfl).2 2 rfl (by decide)

/-- Claim C6: for every push of one project, the number of update calls in
the push trace is one if any scalar setting differs (all differing fields
coalesced as the keyword fields of that single call) and zero if none
differs. -/
theorem push_single_coalesced_update_call (cfg : String → LocalConfig)
    (libs : String → List String) (fuel : Nat) (path : String) (st : PushState)
    (pid : Nat) (cp : QCProject)
    (h0 : st.ops = [])
    (h1 : lookupPath (resolveProject cfg libs fuel path st) path = some pid)
    (h2 : dirFind (resolveProject cfg libs fuel path st).directory pid = some cp) :
    (pushProject cfg libs fuel path st).ops.countP RemoteOp.isUpdate =
      (if scalarUpdateFields (cfg path).leanEngine (cfg path).pythonVenv cp = ⟨none, none⟩
        then 0 else 1) ∧
    (scalarUpdateFields (cfg path).leanEngine (cfg path).pythonVenv cp ≠ ⟨none, none⟩ →
      RemoteOp.update pid
          (scalarUpdateFields (cfg path).leanEngine (cfg path).pythonVenv cp).lean_engine
          (scalarUpdateFields (cfg path).leanEngine (cfg path).pythonVenv cp).python_venv ∈
        (pushProject cfg libs fuel path st).ops) := by
  constructor
  · rw [pushProject_eq_of_found cfg libs fuel path st pid cp h1 h2]
    obtain ⟨tl, htl, hctl⟩ := resolveProject_ops cfg libs fuel path st
    rw [h0, List.nil_append] at htl
    simp only [htl, List.countP_append]
    rw [countP_isUpdate_onlyCreates tl hctl, countP_isUpdate_diff, countP_isUpdate_updateOps]
    have hup : ([RemoteOp.uploadFiles pid].countP RemoteOp.isUpdate) = 0 := by
      simp [RemoteOp.isUpdate]
    rw [hup]
    omega
  · exact fun hf => update_mem_push cfg libs fuel path st pid cp h1 h2 hf

/-- Witness for C6: both scalars differ and the push makes exactly one
update call, carrying both keyword fields. -/
theorem push_single_coalesced_update_call_witness :
    (pushProject cfgBoth libsNone 1 "Python Project"
        (initState [cloudDefault] 5000)).ops.countP RemoteOp.isUpdate = 1 ∧
    RemoteOp.update 1000 (some 456) (some 2) ∈
      (pushProject cfgBoth libsNone 1 "Python Project" (initState [cloudDefault] 5000)).ops := by
  have h := push_single_coalesced_update_call cfgBoth libsNone 1 "Python Project"
    (initState [cloudDefault] 5000) 1000 cloudDefault rfl rfl rfl
  exact ⟨h.1.trans (by decide), h.2 (by decide)⟩

/-- Claim C7: within one push invocation over a batch of projects, at most
one remote create call is issued per local project path, and a path with a
persisted cloud identifier is never created. -/
theorem push_creates_each_path_at_most_once (cfg : String → LocalConfig)
    (libs : String → List String) (fuel : Nat) (paths : List String)
    (dir : List QCProject) (nid : Nat) (p : String) :
    (pushProjects cfg libs fuel paths (initState dir nid)).ops.count (RemoteOp.create p) ≤ 1 ∧
    ∀ c, (cfg p).cloudId = some c →
      RemoteOp.create p ∉ (pushProjects cfg libs fuel paths (initState dir nid)).ops := by
  have h := pushProjects_good cfg libs fuel paths (initState dir nid)
    (initState_good cfg dir nid) p
  exact ⟨h.2.1, h.2.2⟩

/-- Witness for C7: a batch push of a project with a persisted cloud
identifier creates it zero times (and at most once). -/
theorem push_creates_each_path_at_most_once_witness :
    (pushProjects cfgCloudOnly libsNone 1 ["Python Project"]
        (initState [cloudUnpinned] 5000)).ops.count (RemoteOp.create "Python Project") ≤ 1 ∧
    RemoteOp.create "Python Project" ∉
      (pushProjects cfgCloudOnly libsNone 1 ["Python Project"]
        (initState [cloudUnpinned] 5000)).ops :=
  ⟨(push_creates_each_path_at_most_once cfgCloudOnly libsNone 1 ["Python Project"]
      [cloudUnpinned] 5000 "Python Project").1,
    (push_creates_each_path_at_most_once cfgCloudOnly libsNone 1 ["Python Project"]
      [cloudUnpinned] 5000 "Python Project").2 1000 rfl⟩

/-- Claim C8: renaming a library first detaches the old reference from every
project whose config lists it, then renames the directory, then reattaches
a reference to the new path for each previously enumerated dependent, in
that order; afterwards every dependent's persisted reference set contains
the new path and not the old one, and every intermediate persisted state is
free of references to nonexistent paths. -/
theorem rename_propagates_library_references (s : LocalState) (old new : String)
    (hwf : wellFormed s = true) (hnd : s.projects.Nodup) (hold : old ∈ s.projects)
    (hnew : new ∉ s.projects) (hne : old ≠ new) (hself : old ∉ s.refs old) :
    updateProjectRename false s old new =
      Except.ok (attachAll (dependentsOf s old) (renameDir (detachAll s old) old new) new,
        ((dependentsOf s old).map fun p => RenameOp.detach p old) ++
          [RenameOp.rename old new] ++
          ((dependentsOf s old).map fun p => RenameOp.attach p new)) ∧
    (∀ p ∈ dependentsOf s old,
      old ∉ (attachAll (dependentsOf s old) (renameDir (detachAll s old) old new) new).refs p ∧
      new ∈ (attachAll (dependentsOf s old) (renameDir (detachAll s old) old new) new).refs p) ∧
    wellFormed (detachAll s old) = true ∧
    wellFormed (renameDir (detachAll s old) old new) = true ∧
    wellFormed (attachAll (dependentsOf s old) (renameDir (detachAll s old) old new) new) =
      true := by
  have hdnd : (dependentsOf s old).Nodup := hnd.filter _
  have hwf1 := wellFormed_detachAll s old hwf
  have hwf2 := wellFormed_rename_detach s old new hwf hnew hself
  have hnewproj : new ∈ (renameDir (detachAll s old) old new).projects := by
    show new ∈ (detachAll s old).projects.map fun p => if p = old then new else p
    rw [detachAll, projects_foldl_removeRef]
    exact List.mem_map.mpr ⟨old, hold, if_pos rfl⟩
  have hwf3 := wellFormed_attachAll _ _ _ hdnd hwf2 hnewproj
  refine ⟨rfl, ?_, hwf1, hwf2, hwf3⟩
  intro p hp
  have hpfacts := (mem_dependentsOf s old p).mp hp
  have hrefs3 :
      (attachAll (dependentsOf s old) (renameDir (detachAll s old) old new) new).refs p =
        (renameDir (detachAll s old) old new).refs p ++ [new] := by
    unfold attachAll
    rw [refs_foldl_addRef new _ hdnd, if_pos hp]
  have hpnew : p ≠ new := fun h => hnew (h ▸ hpfacts.1)
  have hrefs2 : (renameDir (detachAll s old) old new).refs p = (detachAll s old).refs p := by
    show (if p = new then (detachAll s old).refs old
      else if p = old then [] else (detachAll s old).refs p) = _
    rw [if_neg hpnew, if_neg hpfacts.2.1]
  have hrefs1 : (detachAll s old).refs p = (s.refs p).filter (fun l => l != old) := by
    rw [refs_detachAll, if_pos hp]
  rw [hrefs3, hrefs2, hrefs1]
  constructor
  · intro hmem
    rcases List.mem_append.mp hmem with hm | hm
    · rcases List.mem_filter.mp hm with ⟨_, hb⟩
      simp at hb
    · simp at hm
      exact hne hm
  · exact List.mem_append.mpr (Or.inr (by simp))

/-- Witness for C8: renaming the shared library propagates the new path to
both referencing projects. -/
theorem rename_propagates_library_references_witness :
    "Library/Python Library" ∉
      (attachAll (dependentsOf sRename "Library/Python Library")
        (renameDir (detachAll sRename "Library/Python Library") "Library/Python Library"
          "Library/NewPythonLibrary") "Library/NewPythonLibrary").refs "Python Project" ∧
    "Library/NewPythonLibrary" ∈
      (attachAll (dependentsOf sRename "Library/Python Library")
        (renameDir (detachAll sRename "Library/Python Library") "Library/Python Library"
          "Library/NewPythonLibrary") "Library/NewPythonLibrary").refs "Python Project" :=
  (rename_propagates_library_references sRename "Library/Python Library"
    "Library/NewPythonLibrary" (by decide) (by decide) (by decide) (by decide) (by decide)
    (by decide)).2.1 "Python Project" (by decide)

/-- Claim C9: if the rename step raises after the dependents have been
detached, the rewriter propagates the failure with the detached state as
the persisted outcome: no reattachment to the old path has been emitted and
every dependent's reference list differs from its pre-rename value. -/
theorem rename_failure_leaves_dependents_detached (s : LocalState) (old new : String) :
    updateProjectRename true s old new =
      Except.error (detachAll s old, (dependentsOf s old).map fun p => RenameOp.detach p old) ∧
    (∀ p ∈ dependentsOf s old, old ∉ (detachAll s old).refs p) ∧
    (∀ q l, RenameOp.attach q l ∉ (dependentsOf s old).map fun p => RenameOp.detach p old) ∧
    (∀ p ∈ dependentsOf s old, (detachAll s old).refs p ≠ s.refs p) := by
  refine ⟨rfl, ?_, ?_, ?_⟩
  · intro p hp
    have hpfacts := (mem_dependentsOf s old p).mp hp
    exact no_ref_to_old_after_detach s old p hpfacts.1 hpfacts.2.1
  · intro q l hmem
    rcases List.mem_map.mp hmem with ⟨a, _, ha⟩
    cases ha
  · intro p hp heq
    have hpfacts := (mem_dependentsOf s old p).mp hp
    have hnotin : old ∉ (detachAll s old).refs p :=
      no_ref_to_old_after_detach s old p hpfacts.1 hpfacts.2.1
    rw [heq] at hnotin
    exact hnotin hpfacts.2.2

/-- Witness for C9: on rename failure the first dependent stays detached
and its reference list is not the pre-rename one. -/
theorem rename_failure_leaves_dependents_detached_witness :
    "Library/Python Library" ∉
      (detachAll sRename "Library/Python Library").refs "Python Project" ∧
    (detachAll sRename "Library/Python Library").refs "Python Project" ≠
      sRename.refs "Python Project" :=
  ⟨(rename_failure_leaves_dependents_detached sRename "Library/Python Library"
      "Library/NewPythonLibrary").2.1 "Python Project" (by decide),
    (rename_failure_leaves_dependents_detached sRename "Library/Python Library"
      "Library/NewPythonLibrary").2.2.2 "Python Project" (by decide)⟩

/-- Claim C10: for the project-update operation, an empty string for the
engine image (respectively the python virtual environment) deletes the
engine-image (respectively python-venv) config key, a non-empty string sets
the key to that value, and an omitted option leaves the config unchanged. -/
theorem update_project_option_semantics (c : ProjectConfig) (img venv : String)
    (himg : img ≠ "") (hvenv : venv ≠ "") :
    applyImageOption none c = c ∧
    (applyImageOption (some "") c).get "engine-image" = none ∧
    (applyImageOption (some img) c).get "engine-image" = some img ∧
    applyPythonVenvOption none c = c ∧
    (applyPythonVenvOption (some "") c).get "python-venv" = none ∧
    (applyPythonVenvOption (some venv) c).get "python-venv" = some venv := by
  refine ⟨rfl, ?_, ?_, rfl, ?_, ?_⟩
  · simp [applyImageOption, projectConfig_get_delete]
  · simp [applyImageOption, himg, projectConfig_get_set]
  · simp [applyPythonVenvOption, projectConfig_get_delete]
  · simp [applyPythonVenvOption, hvenv, projectConfig_get_set]

/-- Witness for C10: the option values used by the test suite, applied to a
config that already holds both keys. -/
theorem update_project_option_semantics_witness :
    applyImageOption none cfgStore = cfgStore ∧
    (applyImageOption (some "") cfgStore).get "engine-image" = none ∧
    (applyImageOption (some "lean:test-version") cfgStore).get "engine-image" =
      some "lean:test-version" ∧
    applyPythonVenvOption none cfgStore = cfgStore ∧
    (applyPythonVenvOption (some "") cfgStore).get "python-venv" = none ∧
    (applyPythonVenvOption (some "/test-python-venv") cfgStore).get "python-venv" =
      some "/test-python-venv" :=
  update_project_option_semantics cfgStore "lean:test-version" "/test-python-venv"
    (by decide) (by decide)

end LeanCli
